import Mathlib

/-!
# LoanLedger: verification of the amortization-schedule core

A shallow embedding of the LoanLedger calculation core and payment mutator:

* `loanCalculations` (EMI formula, amortization schedule generator,
  schedule aggregates, day-count helper),
* `notificationHelper` (reminder classification),
* the `markEMIAsPaid` mutator (identical logic in the Firestore hook and
  the local-storage hook; one model covers both).

Modelling conventions:

* JavaScript numbers are embedded as exact rationals `ℚ`; `Math.round` is
  `fun x => Int.floor (x + 1/2)` (round half toward positive infinity) and
  `Math.ceil` is `Int.ceil`.
* Dates are abstracted to integers.  The schedule generator advances the
  due date by one calendar month per step; we model a date as a month
  counter (`dueDate = currentDate + 1` per step), since no verified claim
  depends on calendar-day normalization.  `getDaysUntilDue` instead works
  on millisecond timestamps, exactly as the source does.
* JavaScript array cells are modelled by `Cell`: a real schedule entry
  (`full`), an array hole (`hole`, skipped by `every`/`filter`), a dense
  `undefined` entry (`undef`, produced when spreading an array that has
  holes), and the field-poor object `\x7b paid, paidDate \x7d` created by
  `\x7b ...undefined, paid: true, paidDate: now \x7d` (`stub`).
* The mutator's JS return value `true` / caught-error-`false` is modelled
  by `MarkResult.success` / `MarkResult.failure msg` where `msg` is the
  caught error message.
-/

set_option autoImplicit false

namespace LoanLedger

/-- JavaScript `Math.round`: nearest integer, ties toward positive infinity. -/
def jsRound (x : ℚ) : ℤ := ⌊x + 1 / 2⌋

/-- `Math.round(x * 100) / 100`: the two-decimal rounding used throughout
`loanCalculations`. -/
def round2 (x : ℚ) : ℚ := (jsRound (x * 100) : ℚ) / 100

/-- One row of the amortization schedule, as pushed by
`generateAmortizationSchedule` (field names follow the source object). -/
structure Emi where
  month : ℕ
  emi : ℚ
  principal : ℚ
  interest : ℚ
  balance : ℚ
  dueDate : ℤ
  paid : Bool
  paidDate : Option ℤ
deriving DecidableEq

/-- `calculateEMI(principal, annualInterestRate, durationMonths)`.
The zero-rate branch returns `principal / durationMonths` directly (no
rounding); the general branch applies the standard amortization formula
and rounds to two decimals. -/
def calculateEMI (principal annualInterestRate : ℚ) (durationMonths : ℕ) : ℚ :=
  if annualInterestRate = 0 then principal / durationMonths
  else
    let monthlyRate := annualInterestRate / 12 / 100
    round2 (principal * monthlyRate * (1 + monthlyRate) ^ durationMonths /
      ((1 + monthlyRate) ^ durationMonths - 1))

/-- The `for (let month = 1; month <= durationMonths; month++)` loop of
`generateAmortizationSchedule`, with `rem` months remaining. -/
def scheduleAux (emi monthlyRate : ℚ) : ℕ → ℚ → ℤ → ℕ → List Emi
  | 0, _, _, _ => []
  | rem + 1, balance, currentDate, month =>
    let interestAmount := balance * monthlyRate
    let principalAmount := emi - interestAmount
    let newBalance := max 0 (balance - principalAmount)
    let dueDate := currentDate + 1
    { month := month
      emi := round2 emi
      principal := round2 principalAmount
      interest := round2 interestAmount
      balance := round2 newBalance
      dueDate := dueDate
      paid := false
      paidDate := none } :: scheduleAux emi monthlyRate rem newBalance dueDate (month + 1)

/-- `generateAmortizationSchedule(principal, annualInterestRate,
durationMonths, startDate)`. -/
def generateAmortizationSchedule (principal annualInterestRate : ℚ)
    (durationMonths : ℕ) (startDate : ℤ) : List Emi :=
  scheduleAux (calculateEMI principal annualInterestRate durationMonths)
    (annualInterestRate / 12 / 100) durationMonths principal startDate 1

/-- `calculateTotalInterest`: regenerates the schedule (at the current date,
which does not affect amounts), `reduce`-sums the stored `interest` fields
and rounds to two decimals. -/
def calculateTotalInterest (principal annualInterestRate : ℚ) (durationMonths : ℕ) : ℚ :=
  round2 ((generateAmortizationSchedule principal annualInterestRate durationMonths 0).foldl
    (fun sum e => sum + e.interest) 0)

/-- `calculateTotalAmount`: two-decimal rounding of principal plus total
interest. -/
def calculateTotalAmount (principal annualInterestRate : ℚ) (durationMonths : ℕ) : ℚ :=
  round2 (principal + calculateTotalInterest principal annualInterestRate durationMonths)

/-- `calculateLoanProgress(emis)`: `none` models a missing (`null` or
`undefined`) schedule, which the source treats as progress `0`. -/
def calculateLoanProgress : Option (List Emi) → ℚ
  | none => 0
  | some emis =>
    if emis.length = 0 then 0
    else
      let paidCount := (emis.filter fun e => e.paid).length
      round2 ((paidCount : ℚ) / (emis.length : ℚ) * 100)

/-- `getDaysUntilDue(dueDate)`: `Math.ceil((due - today) / (1000*60*60*24))`
on millisecond timestamps; the current time is passed explicitly. -/
def getDaysUntilDue (dueDate today : ℤ) : ℤ :=
  ⌈((dueDate - today : ℤ) : ℚ) / ((1000 : ℚ) * 60 * 60 * 24)⌉

/-- `getEMIReminderType(emi)` from the notification helper. -/
def getEMIReminderType (e : Emi) (today : ℤ) : Option String :=
  if e.paid then none
  else
    let daysUntilDue := getDaysUntilDue e.dueDate today
    if daysUntilDue < 0 then some "overdue"
    else if daysUntilDue = 7 then some "7day"
    else if daysUntilDue = 3 then some "3day"
    else if daysUntilDue = 1 then some "1day"
    else none

/-- The loan shape consumed by the notification helper: a possibly missing
schedule and a status string. -/
structure Loan where
  emis : Option (List Emi)
  status : String
deriving DecidableEq

/-- The record pushed into a reminder bucket by `getEMIsNeedingReminders`. -/
structure ReminderData where
  loan : Loan
  emi : Emi
  emiIndex : ℕ
deriving DecidableEq

/-- The four reminder buckets returned by `getEMIsNeedingReminders`. -/
structure Reminders where
  sevenDay : List ReminderData
  threeDay : List ReminderData
  oneDay : List ReminderData
  overdue : List ReminderData
deriving DecidableEq

/-- The `switch (reminderType)` that appends a reminder to its bucket. -/
def pushReminder (acc : Reminders) (t : String) (rd : ReminderData) : Reminders :=
  if t = "7day" then { acc with sevenDay := acc.sevenDay ++ [rd] }
  else if t = "3day" then { acc with threeDay := acc.threeDay ++ [rd] }
  else if t = "1day" then { acc with oneDay := acc.oneDay ++ [rd] }
  else if t = "overdue" then { acc with overdue := acc.overdue ++ [rd] }
  else acc

/-- The body of the inner `loan.emis.forEach((emi, index) => ...)`:
classify one EMI and push it into its bucket. -/
def reminderStep (today : ℤ) (loan : Loan) (acc : Reminders) (p : ℕ × Emi) : Reminders :=
  match getEMIReminderType p.2 today with
  | none => acc
  | some t => pushReminder acc t ⟨loan, p.2, p.1⟩

/-- Processing of one loan inside `getEMIsNeedingReminders`: loans with a
missing schedule or status `completed` are skipped, otherwise each EMI is
classified and pushed. -/
def loanReminderStep (today : ℤ) (acc : Reminders) (loan : Loan) : Reminders :=
  match loan.emis with
  | none => acc
  | some emis =>
    if loan.status = "completed" then acc
    else emis.enum.foldl (reminderStep today loan) acc

/-- `getEMIsNeedingReminders(loans)`. -/
def getEMIsNeedingReminders (loans : List Loan) (today : ℤ) : Reminders :=
  loans.foldl (loanReminderStep today) ⟨[], [], [], []⟩

/-- A JavaScript array cell of a loan's `emis` array (see the header for
the four shapes the mutator can produce). -/
inductive Cell where
  | hole
  | undef
  | stub (paid : Bool) (paidDate : Option ℤ)
  | full (e : Emi)
deriving DecidableEq

/-- The persisted loan document, restricted to the fields the mutator
reads or writes (`emis` and `status`). -/
structure LoanDoc where
  emis : List Cell
  status : String
deriving DecidableEq

/-- The loan collection: loan id to document. -/
def Store : Type := List (String × LoanDoc)

/-- `getLoanById`: the document stored under the given id, if any. -/
def findLoan : Store → String → Option LoanDoc
  | [], _ => none
  | (k, v) :: rest, loanId => if k = loanId then some v else findLoan rest loanId

/-- `updateLoan` restricted to the modelled fields: overwrite the document
stored under the given id. -/
def updateStore : Store → String → LoanDoc → Store
  | [], _, _ => []
  | (k, v) :: rest, loanId, newLoan =>
    (k, if k = loanId then newLoan else v) :: updateStore rest loanId newLoan

/-- The per-installment effect of the mutator:
`\x7b ...emi, paid: true, paidDate: now \x7d`. -/
def markPaidEmi (e : Emi) (now : ℤ) : Emi := { e with paid := true, paidDate := some now }

/-- `\x7b ...updatedEMIs[emiIndex], paid: true, paidDate: now \x7d`:
spreading `undefined` (or a hole) yields an object with only the two new
fields; spreading a stub or a full entry keeps its fields. -/
def bumpCell : Cell → ℤ → Cell
  | .hole, now => .stub true (some now)
  | .undef, now => .stub true (some now)
  | .stub _ _, now => .stub true (some now)
  | .full e, now => .full (markPaidEmi e now)

/-- `[...loan.emis]`: the array spread iterates all indices below `length`,
turning holes into dense `undefined` entries. -/
def spreadCopy (l : List Cell) : List Cell :=
  l.map fun c => match c with
    | .hole => .undef
    | c => c

/-- `updatedEMIs[emiIndex] = ...`: in range, replaces the cell; past the
end, extends the array with holes followed by the new stub object. -/
def setEmiIndex : List Cell → ℕ → ℤ → List Cell
  | c :: rest, 0, now => bumpCell c now :: rest
  | c :: rest, i + 1, now => c :: setEmiIndex rest i now
  | [], i, now => List.replicate i .hole ++ [.stub true (some now)]

/-- `updatedEMIs.every(emi => emi.paid)`: visits cells in order, skips
holes, throws a `TypeError` (modelled as `Except.error`) on reading
`.paid` of `undefined`, and short-circuits on the first unpaid entry. -/
def allPaidE : List Cell → Except Unit Bool
  | [] => .ok true
  | .hole :: rest => allPaidE rest
  | .undef :: _ => .error ()
  | .stub b _ :: rest => if b then allPaidE rest else .ok false
  | .full e :: rest => if e.paid then allPaidE rest else .ok false

/-- Outcome of `markEMIAsPaid`: the source returns `true` on success and
catches any thrown error, recording its message and returning `false`. -/
inductive MarkResult where
  | success
  | failure (msg : String)
deriving DecidableEq

/-- `markEMIAsPaid(loanId, emiIndex)` (same logic in the Firestore hook
and the local-storage hook), returning the outcome and the store after
the call. -/
def markEMIAsPaid (store : Store) (loanId : String) (emiIndex : ℕ) (now : ℤ) :
    MarkResult × Store :=
  match findLoan store loanId with
  | none => (.failure "Loan not found", store)
  | some loan =>
    let updatedEMIs := setEmiIndex (spreadCopy loan.emis) emiIndex now
    match allPaidE updatedEMIs with
    | .error _ => (.failure "TypeError", store)
    | .ok allPaid =>
      let newStatus := if allPaid then "completed" else "active"
      (.success, updateStore store loanId { loan with emis := updatedEMIs, status := newStatus })

/-- Apply a sequence of `markEMIAsPaid` calls, each given as
`(loanId, emiIndex, now)`. -/
def applyOps (store : Store) : List (String × ℕ × ℤ) → Store
  | [] => store
  | op :: rest => applyOps (markEMIAsPaid store op.1 op.2.1 op.2.2).2 rest

/-- The boolean paid-state `every` observes on a non-throwing cell; a hole
is vacuously true because `every` skips it. -/
def cellPaid : Cell → Bool
  | .hole => true
  | .undef => false
  | .stub b _ => b
  | .full e => e.paid

/-- A cell that is an ordinary schedule entry. -/
def isFullCell : Cell → Bool
  | .full _ => true
  | _ => false

/-- A well-formed schedule array: every cell is an ordinary entry, as
produced by `generateAmortizationSchedule` at loan creation. -/
def wellFormed (l : List Cell) : Bool := l.all isFullCell

/-- A cell the completion check can tolerate on a fully-paid loan: either
it will make `every` throw (`undef`), or it reads as paid. -/
def cellOk (c : Cell) : Prop := c = Cell.undef ∨ cellPaid c = true

/-- A reminder record whose loan is neither completed nor missing its
schedule. -/
def goodRD (rd : ReminderData) : Prop :=
  rd.loan.status ≠ "completed" ∧ rd.loan.emis ≠ none

/-- Every record in every bucket is good. -/
def goodRems (r : Reminders) : Prop :=
  ∀ rd : ReminderData,
    (rd ∈ r.sevenDay ∨ rd ∈ r.threeDay ∨ rd ∈ r.oneDay ∨ rd ∈ r.overdue) → goodRD rd

/-- A sample schedule entry for concrete stores. -/
def sampleEmi (m : ℕ) (p : Bool) : Emi :=
  { month := m, emi := 1000, principal := 1000, interest := 0, balance := 0,
    dueDate := 0, paid := p, paidDate := none }

/-- A store holding one active loan with a two-installment schedule. -/
def twoEmiStore : Store :=
  [("L1", { emis := [Cell.full (sampleEmi 1 false), Cell.full (sampleEmi 2 false)],
            status := "active" })]

/-- A store holding one active loan with a single unpaid installment. -/
def oneEmiStore : Store :=
  [("L1", { emis := [Cell.full (sampleEmi 1 false)], status := "active" })]

/-- A store holding one completed loan whose only installment is paid. -/
def doneStore : Store :=
  [("L2", { emis := [Cell.full (sampleEmi 1 true)], status := "completed" })]

/-! ## Facts about the two-decimal rounding -/

theorem round2_sub_le (x : ℚ) : round2 x - x ≤ 1 / 200 := by
  have h := Int.floor_le (x * 100 + 1 / 2)
  unfold round2 jsRound
  linarith

theorem sub_round2_lt (x : ℚ) : x - round2 x < 1 / 200 := by
  have h := Int.sub_one_lt_floor (x * 100 + 1 / 2)
  unfold round2 jsRound
  linarith

theorem abs_round2_sub_le (x : ℚ) : |round2 x - x| ≤ 1 / 200 := by
  rw [abs_le]
  constructor
  · linarith [sub_round2_lt x]
  · linarith [round2_sub_le x]

theorem round2_mono {a b : ℚ} (h : a ≤ b) : round2 a ≤ round2 b := by
  unfold round2 jsRound
  have hf : ⌊a * 100 + 1 / 2⌋ ≤ ⌊b * 100 + 1 / 2⌋ := by
    apply Int.floor_le_floor
    nlinarith
  have : ((⌊a * 100 + 1 / 2⌋ : ℤ) : ℚ) ≤ ((⌊b * 100 + 1 / 2⌋ : ℤ) : ℚ) := by
    exact_mod_cast hf
  linarith

theorem round2_nonneg {x : ℚ} (h : 0 ≤ x) : 0 ≤ round2 x := by
  unfold round2 jsRound
  have hf : (0 : ℤ) ≤ ⌊x * 100 + 1 / 2⌋ := by
    apply Int.floor_nonneg.mpr
    nlinarith
  have : ((0 : ℤ) : ℚ) ≤ ((⌊x * 100 + 1 / 2⌋ : ℤ) : ℚ) := by exact_mod_cast hf
  linarith

theorem round2_zero : round2 0 = 0 := by
  norm_num [round2, jsRound]

theorem round2_idem (x : ℚ) : round2 (round2 x) = round2 x := by
  unfold round2 jsRound
  have h1 : (⌊x * 100 + 1 / 2⌋ : ℚ) / 100 * 100 = (⌊x * 100 + 1 / 2⌋ : ℚ) := by
    field_simp
  rw [h1, add_comm, Int.floor_add_int]
  norm_num

/-! ## Shape of the generated schedule -/

theorem scheduleAux_length (emi r : ℚ) (rem : ℕ) :
    ∀ (bal : ℚ) (cur : ℤ) (m : ℕ), (scheduleAux emi r rem bal cur m).length = rem := by
  induction rem with
  | zero => intro bal cur m; rfl
  | succ k ih => intro bal cur m; simp [scheduleAux, ih]

theorem scheduleAux_map_month (emi r : ℚ) (rem : ℕ) :
    ∀ (bal : ℚ) (cur : ℤ) (m : ℕ),
      (scheduleAux emi r rem bal cur m).map Emi.month = List.range' m rem := by
  induction rem with
  | zero => intro bal cur m; rfl
  | succ k ih =>
    intro bal cur m
    rw [List.range'_succ]
    simp [scheduleAux, ih]

theorem scheduleAux_paid_false (emi r : ℚ) (rem : ℕ) :
    ∀ (bal : ℚ) (cur : ℤ) (m : ℕ), ∀ e ∈ scheduleAux emi r rem bal cur m, e.paid = false := by
  induction rem with
  | zero => intro bal cur m e he; cases he
  | succ k ih =>
    intro bal cur m e he
    rcases List.mem_cons.mp he with h | h
    · rw [h]
    · exact ih _ _ _ e h

theorem scheduleAux_cent (emi r : ℚ) (h : round2 emi = emi ∨ r = 0) (rem : ℕ) :
    ∀ (bal : ℚ) (cur : ℤ) (m : ℕ),
      ∀ e ∈ scheduleAux emi r rem bal cur m, |e.principal + e.interest - e.emi| ≤ 1 / 100 := by
  induction rem with
  | zero => intro bal cur m e he; cases he
  | succ k ih =>
    intro bal cur m e he
    rcases List.mem_cons.mp he with hh | hh
    · subst hh
      simp only
      rcases h with hemi | hr0
      · have h1 := abs_round2_sub_le (emi - bal * r)
        have h2 := abs_round2_sub_le (bal * r)
        have habs : |round2 (emi - bal * r) + round2 (bal * r) - round2 emi|
            = |(round2 (emi - bal * r) - (emi - bal * r)) + (round2 (bal * r) - bal * r)| := by
          rw [hemi]
          ring_nf
        rw [habs]
        calc |(round2 (emi - bal * r) - (emi - bal * r)) + (round2 (bal * r) - bal * r)|
            ≤ |round2 (emi - bal * r) - (emi - bal * r)| + |round2 (bal * r) - bal * r| :=
              abs_add _ _
          _ ≤ 1 / 200 + 1 / 200 := add_le_add h1 h2
          _ = 1 / 100 := by norm_num
      · subst hr0
        simp [round2_zero]
    · exact ih _ _ _ e hh

theorem calculateEMI_round2_fixed_or_zero (p rate : ℚ) (n : ℕ) :
    round2 (calculateEMI p rate n) = calculateEMI p rate n ∨ rate = 0 := by
  by_cases h : rate = 0
  · right; exact h
  · left
    simp only [calculateEMI, if_neg h]
    exact round2_idem _

/-- C1: for positive principal, non-negative rate and a positive number of
months, `generateAmortizationSchedule` returns exactly `months` records,
with month indices `1..months` in order, and in each record the stored
principal component plus the stored interest component differs from the
stored installment amount by at most one cent. -/
theorem claim1_schedule_shape (p rate : ℚ) (n : ℕ) (start : ℤ)
    (hp : 0 < p) (hr : 0 ≤ rate) (hn : 0 < n) :
    (generateAmortizationSchedule p rate n start).length = n ∧
    (generateAmortizationSchedule p rate n start).map Emi.month = List.range' 1 n ∧
    ∀ e ∈ generateAmortizationSchedule p rate n start,
      |e.principal + e.interest - e.emi| ≤ 1 / 100 := by
  refine ⟨scheduleAux_length _ _ n p start 1, scheduleAux_map_month _ _ n p start 1, ?_⟩
  have h : round2 (calculateEMI p rate n) = calculateEMI p rate n ∨ rate / 12 / 100 = 0 := by
    rcases calculateEMI_round2_fixed_or_zero p rate n with h | h
    · exact Or.inl h
    · right; rw [h]; norm_num
  exact scheduleAux_cent _ _ h n p start 1

/-- Witness for C1 at principal 12000, rate 0, 12 months. -/
theorem claim1_schedule_shape_witness :
    (generateAmortizationSchedule 12000 0 12 0).length = 12 ∧
    (generateAmortizationSchedule 12000 0 12 0).map Emi.month = List.range' 1 12 ∧
    ∀ e ∈ generateAmortizationSchedule 12000 0 12 0,
      |e.principal + e.interest - e.emi| ≤ 1 / 100 :=
  claim1_schedule_shape 12000 0 12 0 (by norm_num) (by norm_num) (by norm_num)

/-- C2 counterexample: the zero-rate branch of `calculateEMI` returns
`principal / months` without any rounding: at principal 1000 over 3 months
the returned value `1000 / 3` is not a two-decimal value (it is not fixed
by `round2`), refuting "in every case the returned value is rounded to 2
decimal places". -/
theorem claim2_emi_rounding_counterexample :
    calculateEMI 1000 0 3 = 1000 / 3 ∧
    round2 (calculateEMI 1000 0 3) ≠ calculateEMI 1000 0 3 := by
  constructor
  · norm_num [calculateEMI]
  · norm_num [calculateEMI, round2, jsRound]

/-- C2 amended: `calculateEMI` returns `principal / months` with no
rounding when the annual rate is zero; for a nonzero rate it returns the
standard amortization formula rounded to 2 decimal places (and that result
is a fixed point of the two-decimal rounding). -/
theorem claim2_emi_formula_amended (p rate : ℚ) (n : ℕ) :
    (rate = 0 → calculateEMI p rate n = p / n) ∧
    (rate ≠ 0 →
      calculateEMI p rate n =
        round2 (p * (rate / 12 / 100) * (1 + rate / 12 / 100) ^ n /
          ((1 + rate / 12 / 100) ^ n - 1)) ∧
      round2 (calculateEMI p rate n) = calculateEMI p rate n) := by
  constructor
  · intro h
    simp [calculateEMI, h]
  · intro h
    refine ⟨by simp [calculateEMI, h], ?_⟩
    simp only [calculateEMI, if_neg h]
    exact round2_idem _

/-- Witness for the amended C2 at a zero-rate and a nonzero-rate input. -/
theorem claim2_emi_formula_amended_witness :
    calculateEMI 12000 0 12 = 1000 ∧
    round2 (calculateEMI 50000 12 12) = calculateEMI 50000 12 12 := by
  constructor
  · rw [(claim2_emi_formula_amended 12000 0 12).1 rfl]
    norm_num
  · exact ((claim2_emi_formula_amended 50000 12 12).2 (by norm_num)).2

/-! ## Balance behaviour -/

theorem scheduleAux_balance_nonneg (emi r : ℚ) (rem : ℕ) :
    ∀ (bal : ℚ) (cur : ℤ) (m : ℕ), ∀ e ∈ scheduleAux emi r rem bal cur m, 0 ≤ e.balance := by
  induction rem with
  | zero => intro bal cur m e he; cases he
  | succ k ih =>
    intro bal cur m e he
    rcases List.mem_cons.mp he with hh | hh
    · subst hh
      exact round2_nonneg (le_max_left 0 _)
    · exact ih _ _ _ e hh

theorem scheduleAux_balance_chain (emi r : ℚ) (hr : 0 ≤ r) (rem : ℕ) :
    ∀ (bal : ℚ) (cur : ℤ) (m : ℕ), 0 ≤ bal → bal * r ≤ emi →
      List.Chain' (fun a b : ℚ => b ≤ a)
        (round2 bal :: (scheduleAux emi r rem bal cur m).map Emi.balance) := by
  induction rem with
  | zero => intro bal cur m _ _; simp [scheduleAux]
  | succ k ih =>
    intro bal cur m hbal hie
    have hnb_le : max 0 (bal - (emi - bal * r)) ≤ bal := by
      apply max_le hbal
      linarith
    have hnb_nonneg : 0 ≤ max 0 (bal - (emi - bal * r)) := le_max_left 0 _
    have hnb_ie : max 0 (bal - (emi - bal * r)) * r ≤ emi :=
      le_trans (mul_le_mul_of_nonneg_right hnb_le hr) hie
    simp only [scheduleAux, List.map_cons]
    exact List.chain'_cons.mpr ⟨round2_mono hnb_le, ih _ _ _ hnb_nonneg hnb_ie⟩

/-- C3 counterexample: at principal 9, annual rate 1199 percent, 12 months
(valid terms: positive principal, non-negative rate, positive months), the
rounded EMI (8.99) is below the first month's interest (8.9925), so the
stored balances increase month over month (9.00, 9.01, 9.02, ...) and the
final stored balance is 19.19 — refuting both "non-increasing" and "zero
within one cent at the final installment". -/
theorem claim3_balance_counterexample :
    ¬ (List.Chain' (fun a b : ℚ => b ≤ a)
        ((generateAmortizationSchedule 9 1199 12 0).map Emi.balance) ∧
      (∀ e ∈ generateAmortizationSchedule 9 1199 12 0, 0 ≤ e.balance) ∧
      |((generateAmortizationSchedule 9 1199 12 0).map Emi.balance).getLastD 0| ≤ 1 / 100) := by
  intro h
  have hchain := h.1
  have heval : (generateAmortizationSchedule 9 1199 12 0).map Emi.balance =
      [9, 901/100, 451/50, 226/25, 227/25, 229/25, 233/25, 241/25,
        1027/100, 231/20, 141/10, 1919/100] := by
    norm_num [generateAmortizationSchedule, scheduleAux, calculateEMI, round2, jsRound]
  rw [heval] at hchain
  simp only [List.chain'_cons, List.chain'_singleton, and_true] at hchain
  norm_num at hchain

/-- C3 amended: the stored balance is never negative; and whenever the
rounded EMI is at least the first month's interest
(`principal * monthlyRate`, which the counterexample violates), the stored
balance is non-increasing from the first to the last installment.  The
"final balance is zero within one cent" part fails on the code even under
that extra hypothesis and is dropped. -/
theorem claim3_balance_amended (p rate : ℚ) (n : ℕ) (start : ℤ) :
    (∀ e ∈ generateAmortizationSchedule p rate n start, 0 ≤ e.balance) ∧
    (0 ≤ p → 0 ≤ rate → p * (rate / 12 / 100) ≤ calculateEMI p rate n →
      List.Chain' (fun a b : ℚ => b ≤ a)
        ((generateAmortizationSchedule p rate n start).map Emi.balance)) := by
  constructor
  · exact scheduleAux_balance_nonneg _ _ n p start 1
  · intro hp hr hemi
    have hr' : 0 ≤ rate / 12 / 100 := by positivity
    exact (scheduleAux_balance_chain _ _ hr' n p start 1 hp hemi).tail

/-- Witness for the amended C3 at principal 12000, rate 0, 12 months. -/
theorem claim3_balance_amended_witness :
    (∀ e ∈ generateAmortizationSchedule 12000 0 12 0, 0 ≤ e.balance) ∧
    List.Chain' (fun a b : ℚ => b ≤ a)
      ((generateAmortizationSchedule 12000 0 12 0).map Emi.balance) :=
  ⟨(claim3_balance_amended 12000 0 12 0).1,
    (claim3_balance_amended 12000 0 12 0).2 (by norm_num) (by norm_num)
      (by norm_num [calculateEMI])⟩

/-! ## Schedule aggregates -/

theorem scheduleAux_interest_date_free (emi r : ℚ) (rem : ℕ) :
    ∀ (bal : ℚ) (cur cur' : ℤ) (m m' : ℕ),
      (scheduleAux emi r rem bal cur m).map Emi.interest
        = (scheduleAux emi r rem bal cur' m').map Emi.interest := by
  induction rem with
  | zero => intro bal cur cur' m m'; rfl
  | succ k ih => intro bal cur cur' m m'; simp [scheduleAux]; exact ih _ _ _ _ _

theorem foldl_add_map (f : Emi → ℚ) :
    ∀ (l : List Emi) (c : ℚ), l.foldl (fun s e => s + f e) c = c + (l.map f).sum := by
  intro l
  induction l with
  | nil => intro c; simp
  | cons a t ih => intro c; simp [ih]; ring

/-- C7: `calculateTotalInterest` is the two-decimal rounding of the sum of
the stored `interest` fields of the generated schedule (for any start
date), and `calculateTotalAmount` equals principal plus total interest to
within one cent. -/
theorem claim7_totals (p rate : ℚ) (n : ℕ) (start : ℤ) :
    calculateTotalInterest p rate n
        = round2 (((generateAmortizationSchedule p rate n start).map Emi.interest).sum) ∧
    |calculateTotalAmount p rate n - (p + calculateTotalInterest p rate n)| ≤ 1 / 100 := by
  constructor
  · unfold calculateTotalInterest
    rw [foldl_add_map, zero_add]
    unfold generateAmortizationSchedule
    rw [scheduleAux_interest_date_free _ _ n p 0 start 1 1]
  · exact le_trans (abs_round2_sub_le _) (by norm_num)

/-! ## Loan progress -/

theorem round2_hundred : round2 100 = 100 := by
  norm_num [round2, jsRound]

theorem filter_paid_length_set (now : ℤ) :
    ∀ (l : List Emi) (i : ℕ) (e : Emi), l.get? i = some e →
      (l.filter fun x => x.paid).length
        ≤ ((l.set i (markPaidEmi e now)).filter fun x => x.paid).length := by
  intro l
  induction l with
  | nil => intro i e h; cases h
  | cons a t ih =>
    intro i e h
    cases i with
    | zero =>
      simp only [List.set]
      rw [List.filter_cons, List.filter_cons]
      have : (markPaidEmi e now).paid = true := rfl
      rw [this]
      by_cases ha : a.paid
      · rw [if_pos (by simpa using ha)]
        simp
      · rw [if_neg (by simpa using ha)]
        simp
    | succ j =>
      simp only [List.set]
      rw [List.filter_cons, List.filter_cons]
      have hj : t.get? j = some e := by simpa using h
      by_cases ha : a.paid
      · rw [if_pos (by simpa using ha), if_pos (by simpa using ha)]
        simpa using ih j e hj
      · rw [if_neg (by simpa using ha), if_neg (by simpa using ha)]
        exact ih j e hj

/-- C8: `calculateLoanProgress` is the two-decimal rounding of
`100 * paidCount / totalCount`; it is `0` for a missing schedule, `0` on a
freshly generated schedule, `100` when every installment is paid, and
non-decreasing when any single installment is marked paid (hence under any
order of markings). -/
theorem claim8_progress :
    (∀ l : List Emi, calculateLoanProgress (some l)
        = round2 (100 * ((l.filter fun e => e.paid).length : ℚ) / (l.length : ℚ))) ∧
    calculateLoanProgress none = 0 ∧
    (∀ (p rate : ℚ) (n : ℕ) (start : ℤ),
      calculateLoanProgress (some (generateAmortizationSchedule p rate n start)) = 0) ∧
    (∀ l : List Emi, l ≠ [] → (∀ e ∈ l, e.paid = true) →
      calculateLoanProgress (some l) = 100) ∧
    (∀ (l : List Emi) (i : ℕ) (now : ℤ) (e : Emi), l.get? i = some e →
      calculateLoanProgress (some l)
        ≤ calculateLoanProgress (some (l.set i (markPaidEmi e now)))) := by
  have hformula : ∀ l : List Emi, calculateLoanProgress (some l)
      = round2 (100 * ((l.filter fun e => e.paid).length : ℚ) / (l.length : ℚ)) := by
    intro l
    simp only [calculateLoanProgress]
    by_cases hlen : l.length = 0
    · rw [if_pos hlen, hlen]
      norm_num [round2_zero]
    · rw [if_neg hlen]
      congr 1
      rw [div_mul_eq_mul_div, mul_comm]
  refine ⟨hformula, rfl, ?_, ?_, ?_⟩
  · intro p rate n start
    rw [hformula]
    have hunpaid : ((generateAmortizationSchedule p rate n start).filter
        fun e => e.paid) = [] := by
      rw [List.filter_eq_nil_iff]
      intro e he
      have := scheduleAux_paid_false _ _ n p start 1 e he
      simp [this]
    rw [hunpaid]
    norm_num [round2_zero]
  · intro l hne hall
    rw [hformula]
    have hfull : (l.filter fun e => e.paid) = l := by
      rw [List.filter_eq_self]
      intro e he
      simp [hall e he]
    rw [hfull]
    have hlen : (l.length : ℚ) ≠ 0 := by
      simp only [ne_eq, Nat.cast_eq_zero, List.length_eq_zero]
      exact hne
    rw [mul_div_assoc, div_self hlen, mul_one, round2_hundred]
  · intro l i now e hget
    rw [hformula, hformula]
    have hlen : (l.set i (markPaidEmi e now)).length = l.length := List.length_set l _ _
    rw [hlen]
    apply round2_mono
    have hcount := filter_paid_length_set now l i e hget
    have hlen0 : (0 : ℚ) < l.length := by
      have hi : i < l.length := List.get?_eq_some.mp hget |>.1
      have : 0 < l.length := Nat.lt_of_le_of_lt (Nat.zero_le i) hi
      exact_mod_cast this
    gcongr

/-- Witness for C8 at one-element schedules. -/
theorem claim8_progress_witness :
    calculateLoanProgress
        (some [{ month := 1, emi := 1000, principal := 1000, interest := 0, balance := 0,
                 dueDate := 0, paid := true, paidDate := some 0 }]) = 100 ∧
    calculateLoanProgress
        (some [{ month := 1, emi := 1000, principal := 1000, interest := 0, balance := 0,
                 dueDate := 0, paid := false, paidDate := none }])
      ≤ calculateLoanProgress
        (some ([{ month := 1, emi := 1000, principal := 1000, interest := 0, balance := 0,
                  dueDate := 0, paid := false, paidDate := none }].set 0
          (markPaidEmi { month := 1, emi := 1000, principal := 1000, interest := 0, balance := 0,
                         dueDate := 0, paid := false, paidDate := none } 5))) := by
  constructor
  · exact claim8_progress.2.2.2.1 _ (by simp) (by intro e he; simp at he; rw [he])
  · exact claim8_progress.2.2.2.2 _ 0 5 _ rfl

/-! ## Day counting -/

/-- C9: `getDaysUntilDue` is exactly the ceiling of the millisecond
difference divided by one day (characterized without reference to the
implementation), a due date exactly 3 days ahead yields exactly 3, and a
due date exactly one day in the past yields exactly minus 1. -/
theorem claim9_days_until_due (dueDate now k : ℤ) :
    (getDaysUntilDue dueDate now = k ↔
      ((k : ℚ) - 1) * 86400000 < ((dueDate - now : ℤ) : ℚ) ∧
        ((dueDate - now : ℤ) : ℚ) ≤ (k : ℚ) * 86400000) ∧
    getDaysUntilDue (now + 3 * 86400000) now = 3 ∧
    getDaysUntilDue (now - 86400000) now = -1 := by
  have hM : ((1000 : ℚ) * 60 * 60 * 24) = 86400000 := by norm_num
  have hMpos : (0 : ℚ) < 86400000 := by norm_num
  refine ⟨?_, ?_, ?_⟩
  · unfold getDaysUntilDue
    rw [hM, Int.ceil_eq_iff, lt_div_iff₀ hMpos, div_le_iff₀ hMpos]
  · unfold getDaysUntilDue
    have h3 : ((now + 3 * 86400000 - now : ℤ) : ℚ) = 259200000 := by
      push_cast
      ring
    rw [hM, h3]
    norm_num
  · unfold getDaysUntilDue
    have h1 : ((now - 86400000 - now : ℤ) : ℚ) = -86400000 := by
      push_cast
      ring
    rw [hM, h1]
    rw [show (-86400000 : ℚ) / 86400000 = ((-1 : ℤ) : ℚ) by norm_num]
    exact Int.ceil_intCast (-1)

/-- Witness for C9 at concrete timestamps. -/
theorem claim9_days_until_due_witness :
    getDaysUntilDue (0 + 3 * 86400000) 0 = 3 ∧ getDaysUntilDue (0 - 86400000) 0 = -1 :=
  ⟨(claim9_days_until_due 0 0 0).2.1, (claim9_days_until_due 0 0 0).2.2⟩

/-! ## Reminder classification -/

theorem pushReminder_good {acc : Reminders} {rd : ReminderData} (t : String)
    (hacc : goodRems acc) (hrd : goodRD rd) : goodRems (pushReminder acc t rd) := by
  have hext : ∀ (l : List ReminderData) (x : ReminderData), x ∈ l ++ [rd] → x ∈ l ∨ x = rd := by
    intro l x hx
    simpa using hx
  unfold pushReminder
  split_ifs
  · intro x hx
    rcases hx with h | h | h | h
    · rcases hext _ _ h with h' | h'
      · exact hacc x (Or.inl h')
      · subst h'; exact hrd
    · exact hacc x (Or.inr (Or.inl h))
    · exact hacc x (Or.inr (Or.inr (Or.inl h)))
    · exact hacc x (Or.inr (Or.inr (Or.inr h)))
  · intro x hx
    rcases hx with h | h | h | h
    · exact hacc x (Or.inl h)
    · rcases hext _ _ h with h' | h'
      · exact hacc x (Or.inr (Or.inl h'))
      · subst h'; exact hrd
    · exact hacc x (Or.inr (Or.inr (Or.inl h)))
    · exact hacc x (Or.inr (Or.inr (Or.inr h)))
  · intro x hx
    rcases hx with h | h | h | h
    · exact hacc x (Or.inl h)
    · exact hacc x (Or.inr (Or.inl h))
    · rcases hext _ _ h with h' | h'
      · exact hacc x (Or.inr (Or.inr (Or.inl h')))
      · subst h'; exact hrd
    · exact hacc x (Or.inr (Or.inr (Or.inr h)))
  · intro x hx
    rcases hx with h | h | h | h
    · exact hacc x (Or.inl h)
    · exact hacc x (Or.inr (Or.inl h))
    · exact hacc x (Or.inr (Or.inr (Or.inl h)))
    · rcases hext _ _ h with h' | h'
      · exact hacc x (Or.inr (Or.inr (Or.inr h')))
      · subst h'; exact hrd
  · exact hacc

theorem reminderStep_foldl_good (today : ℤ) (loan : Loan)
    (hloan : loan.status ≠ "completed" ∧ loan.emis ≠ none) :
    ∀ (xs : List (ℕ × Emi)) (acc : Reminders), goodRems acc →
      goodRems (xs.foldl (reminderStep today loan) acc) := by
  intro xs
  induction xs with
  | nil => intro acc hacc; exact hacc
  | cons p t ih =>
    intro acc hacc
    rw [List.foldl_cons]
    apply ih
    unfold reminderStep
    cases getEMIReminderType p.2 today with
    | none => exact hacc
    | some t' => exact pushReminder_good t' hacc ⟨hloan.1, hloan.2⟩

theorem loanReminderStep_good (today : ℤ) (acc : Reminders) (loan : Loan)
    (hacc : goodRems acc) : goodRems (loanReminderStep today acc loan) := by
  unfold loanReminderStep
  cases hemis : loan.emis with
  | none => exact hacc
  | some es =>
    show goodRems (if loan.status = "completed" then acc
      else List.foldl (reminderStep today loan) acc es.enum)
    by_cases hst : loan.status = "completed"
    · rw [if_pos hst]; exact hacc
    · rw [if_neg hst]
      exact reminderStep_foldl_good today loan ⟨hst, by simp [hemis]⟩ es.enum acc hacc

theorem loans_foldl_good (today : ℤ) :
    ∀ (loans : List Loan) (acc : Reminders), goodRems acc →
      goodRems (loans.foldl (loanReminderStep today) acc) := by
  intro loans
  induction loans with
  | nil => intro acc hacc; exact hacc
  | cons loan rest ih =>
    intro acc hacc
    rw [List.foldl_cons]
    exact ih _ (loanReminderStep_good today acc loan hacc)

/-- C10: the reminder classifier returns `none` for every paid EMI; for an
unpaid EMI it returns `overdue` exactly when `daysUntilDue < 0` and
`7day`/`3day`/`1day` exactly when `daysUntilDue` equals 7/3/1 (it is a
single-valued function, so each EMI lands in at most one bucket); and no
reminder produced by `getEMIsNeedingReminders` belongs to a loan whose
status is `completed` or whose schedule is missing. -/
theorem claim10_reminder_classification :
    (∀ (e : Emi) (today : ℤ), e.paid = true → getEMIReminderType e today = none) ∧
    (∀ (e : Emi) (today : ℤ), e.paid = false →
      ((getEMIReminderType e today = some "overdue" ↔ getDaysUntilDue e.dueDate today < 0) ∧
       (getEMIReminderType e today = some "7day" ↔ getDaysUntilDue e.dueDate today = 7) ∧
       (getEMIReminderType e today = some "3day" ↔ getDaysUntilDue e.dueDate today = 3) ∧
       (getEMIReminderType e today = some "1day" ↔ getDaysUntilDue e.dueDate today = 1))) ∧
    (∀ (loans : List Loan) (today : ℤ) (rd : ReminderData),
      (rd ∈ (getEMIsNeedingReminders loans today).sevenDay ∨
       rd ∈ (getEMIsNeedingReminders loans today).threeDay ∨
       rd ∈ (getEMIsNeedingReminders loans today).oneDay ∨
       rd ∈ (getEMIsNeedingReminders loans today).overdue) →
      rd.loan.status ≠ "completed" ∧ rd.loan.emis ≠ none) := by
  refine ⟨?_, ?_, ?_⟩
  · intro e today h
    simp [getEMIReminderType, h]
  · intro e today h
    simp only [getEMIReminderType, h, Bool.false_eq_true, if_false]
    split_ifs with h1 h2 h3 h4 <;> simp_all <;> omega
  · intro loans today rd hmem
    have hinit : goodRems ⟨[], [], [], []⟩ := by
      intro x hx
      simp at hx
    exact loans_foldl_good today loans _ hinit rd hmem

/-- Witness for C10: a paid EMI is never classified, an unpaid EMI one day
past due is classified `overdue`, and a reminder produced from a concrete
loan list belongs to a non-completed loan with a schedule. -/
theorem claim10_reminder_classification_witness :
    getEMIReminderType
        { month := 1, emi := 1000, principal := 1000, interest := 0, balance := 0,
          dueDate := 0, paid := true, paidDate := some 0 } 86400000 = none ∧
    (getEMIReminderType
        { month := 1, emi := 1000, principal := 1000, interest := 0, balance := 0,
          dueDate := 0, paid := false, paidDate := none } 86400000 = some "overdue" ↔
      getDaysUntilDue 0 86400000 < 0) := by
  constructor
  · exact claim10_reminder_classification.1 _ 86400000 rfl
  · exact (claim10_reminder_classification.2.1
      { month := 1, emi := 1000, principal := 1000, interest := 0, balance := 0,
        dueDate := 0, paid := false, paidDate := none } 86400000 rfl).1

/-! ## The mark-paid mutator -/

theorem findLoan_updateStore_eq (store : Store) (id : String) (L : LoanDoc) :
    ∀ loan, findLoan store id = some loan → findLoan (updateStore store id L) id = some L := by
  induction store with
  | nil => intro loan h; cases h
  | cons kv rest ih =>
    intro loan h
    obtain ⟨k, v⟩ := kv
    simp only [updateStore, findLoan]
    by_cases hk : k = id
    · simp [hk]
    · rw [if_neg hk]
      simp only [findLoan, if_neg hk] at h
      exact ih loan h

theorem findLoan_updateStore_ne (store : Store) (id id' : String) (L : LoanDoc)
    (h : id' ≠ id) : findLoan (updateStore store id' L) id = findLoan store id := by
  induction store with
  | nil => rfl
  | cons kv rest ih =>
    obtain ⟨k, v⟩ := kv
    simp only [updateStore, findLoan]
    by_cases hk2 : k = id
    · rw [if_pos hk2, if_pos hk2]
      have hki : ¬k = id' := by
        rw [hk2]
        exact fun hc => h hc.symm
      rw [if_neg hki]
    · rw [if_neg hk2, if_neg hk2]
      exact ih

theorem spreadCopy_of_wellFormed {l : List Cell} (h : wellFormed l = true) :
    spreadCopy l = l := by
  induction l with
  | nil => rfl
  | cons c rest ih =>
    rw [wellFormed, List.all_cons, Bool.and_eq_true] at h
    cases c with
    | full e => simp only [spreadCopy, List.map_cons]
                rw [spreadCopy] at ih
                rw [ih (by rw [wellFormed]; exact h.2)]
    | hole => cases h.1
    | undef => cases h.1
    | stub b d => cases h.1

theorem setEmiIndex_no_undef {now : ℤ} :
    ∀ (l : List Cell) (i : ℕ), (∀ c ∈ l, c ≠ Cell.undef) →
      ∀ c ∈ setEmiIndex l i now, c ≠ Cell.undef := by
  intro l
  induction l with
  | nil =>
    intro i _ c hc
    simp only [setEmiIndex] at hc
    rcases List.mem_append.mp hc with h | h
    · rw [List.eq_of_mem_replicate h]
      intro hcon; cases hcon
    · rw [List.mem_singleton.mp h]
      intro hcon; cases hcon
  | cons a rest ih =>
    intro i hl c hc
    cases i with
    | zero =>
      rcases List.mem_cons.mp hc with h | h
      · subst h
        cases a <;> intro hcon <;> cases hcon
      · exact hl c (List.mem_cons_of_mem a h)
    | succ j =>
      rcases List.mem_cons.mp hc with h | h
      · subst h; exact hl c (List.mem_cons_self c rest)
      · exact ih j (fun x hx => hl x (List.mem_cons_of_mem a hx)) c h

theorem wellFormed_no_undef {l : List Cell} (h : wellFormed l = true) :
    ∀ c ∈ l, c ≠ Cell.undef := by
  intro c hc
  have := List.all_eq_true.mp h c hc
  cases c with
  | full e => intro hcon; cases hcon
  | hole => cases this
  | undef => cases this
  | stub b d => cases this

theorem allPaidE_no_undef :
    ∀ l : List Cell, (∀ c ∈ l, c ≠ Cell.undef) → ∃ b, allPaidE l = Except.ok b := by
  intro l
  induction l with
  | nil => intro _; exact ⟨true, rfl⟩
  | cons c rest ih =>
    intro h
    have hrest := fun x hx => h x (List.mem_cons_of_mem c hx)
    cases c with
    | hole => exact ih hrest
    | undef => exact absurd rfl (h Cell.undef (List.mem_cons_self _ _))
    | stub b d =>
      cases b with
      | true => simpa [allPaidE] using ih hrest
      | false => exact ⟨false, rfl⟩
    | full e =>
      by_cases hp : e.paid
      · simpa [allPaidE, hp] using ih hrest
      · exact ⟨false, by simp [allPaidE, hp]⟩

theorem allPaidE_ok_eq :
    ∀ (l : List Cell) (b : Bool), allPaidE l = Except.ok b → b = l.all cellPaid := by
  intro l
  induction l with
  | nil =>
    intro b h
    simp only [allPaidE, Except.ok.injEq] at h
    simp [← h]
  | cons c rest ih =>
    intro b h
    cases c with
    | hole =>
      rw [allPaidE] at h
      simpa [cellPaid] using ih b h
    | undef => cases h
    | stub bb d =>
      cases bb with
      | true =>
        rw [allPaidE, if_pos rfl] at h
        simpa [cellPaid] using ih b h
      | false =>
        rw [allPaidE, if_neg (by simp)] at h
        injection h with h
        simp [← h, cellPaid]
    | full e =>
      by_cases hp : e.paid
      · rw [allPaidE, if_pos hp] at h
        simpa [cellPaid, hp] using ih b h
      · rw [allPaidE, if_neg hp] at h
        injection h with h
        simp [← h, cellPaid]
        intro hcon
        exact absurd hcon hp

theorem allPaidE_of_cellOk :
    ∀ l : List Cell, (∀ c ∈ l, cellOk c) →
      allPaidE l = Except.error () ∨ allPaidE l = Except.ok true := by
  intro l
  induction l with
  | nil => intro _; exact Or.inr rfl
  | cons c rest ih =>
    intro h
    have hrest := fun x hx => h x (List.mem_cons_of_mem c hx)
    have hc := h c (List.mem_cons_self _ _)
    cases c with
    | hole => exact ih hrest
    | undef => exact Or.inl rfl
    | stub bb d =>
      rcases hc with hc | hc
      · cases hc
      · rw [cellPaid] at hc
        subst hc
        simpa [allPaidE] using ih hrest
    | full e =>
      rcases hc with hc | hc
      · cases hc
      · rw [cellPaid] at hc
        simpa [allPaidE, hc] using ih hrest

theorem spreadCopy_cellOk {l : List Cell} (h : ∀ c ∈ l, cellPaid c = true) :
    ∀ c ∈ spreadCopy l, cellOk c := by
  intro c hc
  rcases List.mem_map.mp hc with ⟨c0, hc0, hmap⟩
  have h0 := h c0 hc0
  cases c0 with
  | hole => exact Or.inl hmap.symm
  | undef => cases h0
  | stub bb d => exact Or.inr (hmap ▸ h0)
  | full e => exact Or.inr (hmap ▸ h0)

theorem setEmiIndex_cellOk {now : ℤ} :
    ∀ (l : List Cell) (i : ℕ), (∀ c ∈ l, cellOk c) →
      ∀ c ∈ setEmiIndex l i now, cellOk c := by
  intro l
  induction l with
  | nil =>
    intro i _ c hc
    simp only [setEmiIndex] at hc
    rcases List.mem_append.mp hc with h | h
    · rw [List.eq_of_mem_replicate h]
      exact Or.inr rfl
    · rw [List.mem_singleton.mp h]
      exact Or.inr rfl
  | cons a rest ih =>
    intro i hl c hc
    cases i with
    | zero =>
      rcases List.mem_cons.mp hc with h | h
      · subst h
        cases a <;> exact Or.inr rfl
      · exact hl c (List.mem_cons_of_mem a h)
    | succ j =>
      rcases List.mem_cons.mp hc with h | h
      · subst h; exact hl c (List.mem_cons_self c rest)
      · exact ih j (fun x hx => hl x (List.mem_cons_of_mem a hx)) c h

/-- C4 counterexample: on a loan with a two-installment schedule, calling
the mutator at index 5 (which is at least the schedule length) does not
fail: the source performs `updatedEMIs[5] = ...` which silently extends
the array, and the call reports success. -/
theorem claim4_out_of_range_counterexample :
    (markEMIAsPaid twoEmiStore "L1" 5 0).1 = MarkResult.success ∧
    (findLoan twoEmiStore "L1").map (fun l => l.emis.length) = some 2 := by
  constructor <;> rfl

/-- C4 amended: the mutator fails with the `Loan not found` error exactly
when the loan id is absent from the store; an installment index that is at
least the schedule length of an existing well-formed loan is not rejected:
the schedule is extended (holes plus a paid stub record) and the call
reports success. -/
theorem claim4_not_found_amended (store : Store) (id : String) (i : ℕ) (now : ℤ) :
    (findLoan store id = none →
      markEMIAsPaid store id i now = (MarkResult.failure "Loan not found", store)) ∧
    (∀ loan : LoanDoc, findLoan store id = some loan → wellFormed loan.emis = true →
      loan.emis.length ≤ i → (markEMIAsPaid store id i now).1 = MarkResult.success) := by
  constructor
  · intro h
    simp [markEMIAsPaid, h]
  · intro loan hfind hwf _
    simp only [markEMIAsPaid, hfind]
    rw [spreadCopy_of_wellFormed hwf]
    obtain ⟨b, hb⟩ :=
      allPaidE_no_undef _ (setEmiIndex_no_undef loan.emis i (wellFormed_no_undef hwf))
    rw [hb]

/-- Witness for the amended C4: a missing id fails with `Loan not found`;
an out-of-range index on an existing loan succeeds. -/
theorem claim4_not_found_amended_witness :
    markEMIAsPaid twoEmiStore "NOPE" 0 0 = (MarkResult.failure "Loan not found", twoEmiStore) ∧
    (markEMIAsPaid oneEmiStore "L1" 7 0).1 = MarkResult.success := by
  constructor
  · exact (claim4_not_found_amended twoEmiStore "NOPE" 0 0).1 rfl
  · exact (claim4_not_found_amended oneEmiStore "L1" 7 0).2 _ rfl rfl (by norm_num)

theorem all_cellPaid_of_ok_true {l : List Cell} (h : allPaidE l = Except.ok true) :
    l.all cellPaid = true :=
  (allPaidE_ok_eq l true h).symm ▸ rfl

theorem markEMIAsPaid_preserves_completed (store : Store) (oid : String) (oi : ℕ) (onow : ℤ)
    (id : String) (loan : LoanDoc) (hfind : findLoan store id = some loan)
    (hst : loan.status = "completed") (hall : loan.emis.all cellPaid = true) :
    ∃ loan', findLoan (markEMIAsPaid store oid oi onow).2 id = some loan' ∧
      loan'.status = "completed" ∧ loan'.emis.all cellPaid = true := by
  cases hfindo : findLoan store oid with
  | none =>
    refine ⟨loan, ?_, hst, hall⟩
    simp [markEMIAsPaid, hfindo, hfind]
  | some tloan =>
    by_cases hid : oid = id
    · subst hid
      have htl : tloan = loan := by
        rw [hfind] at hfindo
        exact (Option.some.injEq _ _ ▸ hfindo).symm
      subst htl
      have hok : ∀ c ∈ setEmiIndex (spreadCopy tloan.emis) oi onow, cellOk c :=
        setEmiIndex_cellOk _ oi (spreadCopy_cellOk (List.all_eq_true.mp hall))
      rcases allPaidE_of_cellOk _ hok with herr | htrue
      · refine ⟨tloan, ?_, hst, hall⟩
        simp [markEMIAsPaid, hfindo, herr, hfind]
      · refine ⟨{ tloan with emis := setEmiIndex (spreadCopy tloan.emis) oi onow, status := "completed" }, ?_, rfl, all_cellPaid_of_ok_true htrue⟩
        simp only [markEMIAsPaid, hfindo, htrue]
        exact findLoan_updateStore_eq store oid _ tloan hfindo
    · cases hap : allPaidE (setEmiIndex (spreadCopy tloan.emis) oi onow) with
      | error u =>
        refine ⟨loan, ?_, hst, hall⟩
        simp [markEMIAsPaid, hfindo, hap, hfind]
      | ok b =>
        refine ⟨loan, ?_, hst, hall⟩
        simp only [markEMIAsPaid, hfindo, hap]
        rw [findLoan_updateStore_ne store id oid _ hid, hfind]

/-- C5: after a successful `markEMIAsPaid`, the stored loan has status
`completed` exactly when every visited cell of its schedule reads as paid
and status `active` otherwise; and a loan that is completed with an
all-paid schedule keeps status `completed` under any sequence of
mark-paid operations (the mutator only ever sets `paid` to `true`). -/
theorem claim5_status_completed_iff :
    (∀ (store : Store) (id : String) (i : ℕ) (now : ℤ) (loan' : LoanDoc),
      (markEMIAsPaid store id i now).1 = MarkResult.success →
      findLoan (markEMIAsPaid store id i now).2 id = some loan' →
      ((loan'.status = "completed" ↔ loan'.emis.all cellPaid = true) ∧
       (loan'.status = "active" ↔ loan'.emis.all cellPaid = false))) ∧
    (∀ (store : Store) (ops : List (String × ℕ × ℤ)) (id : String) (loan : LoanDoc),
      findLoan store id = some loan → loan.status = "completed" →
      loan.emis.all cellPaid = true →
      ∃ loan', findLoan (applyOps store ops) id = some loan' ∧
        loan'.status = "completed" ∧ loan'.emis.all cellPaid = true) := by
  constructor
  · intro store id i now loan' hsucc hfind'
    cases hfind : findLoan store id with
    | none => simp [markEMIAsPaid, hfind] at hsucc
    | some loan =>
      cases hap : allPaidE (setEmiIndex (spreadCopy loan.emis) i now) with
      | error u => simp [markEMIAsPaid, hfind, hap] at hsucc
      | ok b =>
        have hupd : findLoan (markEMIAsPaid store id i now).2 id
            = some { loan with emis := setEmiIndex (spreadCopy loan.emis) i now, status := if b then "completed" else "active" } := by
          simp only [markEMIAsPaid, hfind, hap]
          exact findLoan_updateStore_eq store id _ loan hfind
        rw [hupd] at hfind'
        injection hfind' with hfind'
        subst hfind'
        have hb : b = (setEmiIndex (spreadCopy loan.emis) i now).all cellPaid :=
          allPaidE_ok_eq _ b hap
        cases b with
        | true =>
          constructor
          · simp [← hb]
          · constructor
            · intro hcon; simp at hcon
            · intro hcon; rw [← hb] at hcon; cases hcon
        | false =>
          constructor
          · constructor
            · intro hcon; simp at hcon
            · intro hcon; rw [← hb] at hcon; cases hcon
          · simp [← hb]
  · intro store ops
    induction ops generalizing store with
    | nil =>
      intro id loan hfind hst hall
      exact ⟨loan, hfind, hst, hall⟩
    | cons op rest ih =>
      intro id loan hfind hst hall
      obtain ⟨loan1, h1, h2, h3⟩ :=
        markEMIAsPaid_preserves_completed store op.1 op.2.1 op.2.2 id loan hfind hst hall
      exact ih _ id loan1 h1 h2 h3

/-- Witness for C5: marking the only installment of a one-loan store
completes the loan (status iff), and a completed loan stays completed
after a further arbitrary mark-paid call. -/
theorem claim5_status_completed_iff_witness :
    ((({ emis := [Cell.full (markPaidEmi (sampleEmi 1 false) 0)],
         status := "completed" } : LoanDoc).status = "completed" ↔
      ({ emis := [Cell.full (markPaidEmi (sampleEmi 1 false) 0)],
         status := "completed" } : LoanDoc).emis.all cellPaid = true) ∧
     (({ emis := [Cell.full (markPaidEmi (sampleEmi 1 false) 0)],
         status := "completed" } : LoanDoc).status = "active" ↔
      ({ emis := [Cell.full (markPaidEmi (sampleEmi 1 false) 0)],
         status := "completed" } : LoanDoc).emis.all cellPaid = false)) ∧
    (∃ loan', findLoan (applyOps doneStore [("L2", 5, 7)]) "L2" = some loan' ∧
      loan'.status = "completed" ∧ loan'.emis.all cellPaid = true) := by
  constructor
  · exact claim5_status_completed_iff.1 oneEmiStore "L1" 0 0 _ rfl rfl
  · exact claim5_status_completed_iff.2 doneStore [("L2", 5, 7)] "L2" _ rfl rfl rfl

theorem get?_set_self :
    ∀ (l : List Cell) (i : ℕ) (x : Cell), i < l.length → (l.set i x).get? i = some x := by
  intro l
  induction l with
  | nil => intro i x h; cases h
  | cons a rest ih =>
    intro i x h
    cases i with
    | zero => rfl
    | succ j => exact ih j x (Nat.lt_of_succ_lt_succ h)

theorem get?_set_other :
    ∀ (l : List Cell) (i j : ℕ) (x : Cell), j ≠ i → (l.set i x).get? j = l.get? j := by
  intro l
  induction l with
  | nil => intro i j x _; rfl
  | cons a rest ih =>
    intro i j x hne
    cases i with
    | zero =>
      cases j with
      | zero => exact absurd rfl hne
      | succ j' => rfl
    | succ i' =>
      cases j with
      | zero => rfl
      | succ j' => exact ih i' j' x (fun hc => hne (by rw [hc]))

theorem setEmiIndex_of_get? {now : ℤ} :
    ∀ (l : List Cell) (i : ℕ) (c : Cell), l.get? i = some c →
      setEmiIndex l i now = l.set i (bumpCell c now) := by
  intro l
  induction l with
  | nil => intro i c h; cases h
  | cons a rest ih =>
    intro i c h
    cases i with
    | zero =>
      injection h with h
      subst h
      rfl
    | succ j =>
      have hj : rest.get? j = some c := by simpa using h
      simp only [setEmiIndex, List.set]
      rw [ih j c hj]

theorem wellFormed_set_full {l : List Cell} (hwf : wellFormed l = true) (i : ℕ) (e : Emi) :
    wellFormed (l.set i (Cell.full e)) = true := by
  rw [wellFormed, List.all_eq_true]
  intro c hc
  rcases List.mem_or_eq_of_mem_set hc with h | h
  · exact List.all_eq_true.mp hwf c h
  · rw [h]; rfl

/-- C6: marking a valid installment index of an existing loan with a
well-formed schedule succeeds, sets `paid = true` and `paidDate = now` on
exactly the targeted installment — whose `month`, `emi`, `principal`,
`interest`, `balance` and `dueDate` fields are unchanged — and leaves
every other installment exactly as it was. -/
theorem claim6_mark_frame (store : Store) (id : String) (i : ℕ) (now : ℤ)
    (loan : LoanDoc) (e : Emi) (hfind : findLoan store id = some loan)
    (hwf : wellFormed loan.emis = true) (hget : loan.emis.get? i = some (Cell.full e)) :
    (markEMIAsPaid store id i now).1 = MarkResult.success ∧
    ∃ loan', findLoan (markEMIAsPaid store id i now).2 id = some loan' ∧
      loan'.emis.length = loan.emis.length ∧
      loan'.emis.get? i = some (Cell.full (markPaidEmi e now)) ∧
      (markPaidEmi e now).paid = true ∧ (markPaidEmi e now).paidDate = some now ∧
      (markPaidEmi e now).month = e.month ∧ (markPaidEmi e now).emi = e.emi ∧
      (markPaidEmi e now).principal = e.principal ∧
      (markPaidEmi e now).interest = e.interest ∧
      (markPaidEmi e now).balance = e.balance ∧
      (markPaidEmi e now).dueDate = e.dueDate ∧
      (∀ j, j ≠ i → loan'.emis.get? j = loan.emis.get? j) := by
  have hi : i < loan.emis.length := (List.get?_eq_some.mp hget).1
  have hupdated : setEmiIndex (spreadCopy loan.emis) i now
      = loan.emis.set i (Cell.full (markPaidEmi e now)) := by
    rw [spreadCopy_of_wellFormed hwf, setEmiIndex_of_get? loan.emis i _ hget]
    rfl
  have hwf' : wellFormed (loan.emis.set i (Cell.full (markPaidEmi e now))) = true :=
    wellFormed_set_full hwf i _
  obtain ⟨b, hb⟩ := allPaidE_no_undef _ (hupdated ▸ (wellFormed_no_undef hwf' ·))
  constructor
  · simp only [markEMIAsPaid, hfind, hb]
  · refine ⟨{ loan with emis := setEmiIndex (spreadCopy loan.emis) i now, status := if b then "completed" else "active" }, ?_, ?_, ?_, rfl, rfl, rfl, rfl, rfl, rfl, rfl, rfl, ?_⟩
    · simp only [markEMIAsPaid, hfind, hb]
      exact findLoan_updateStore_eq store id _ loan hfind
    · simp only [hupdated]
      exact List.length_set loan.emis _ _
    · simp only [hupdated]
      exact get?_set_self loan.emis i _ hi
    · intro j hj
      simp only [hupdated]
      exact get?_set_other loan.emis i j _ hj

/-- Witness for C6: marking index 0 of a two-installment loan. -/
theorem claim6_mark_frame_witness :
    (markEMIAsPaid twoEmiStore "L1" 0 9 ).1 = MarkResult.success ∧
    ∃ loan', findLoan (markEMIAsPaid twoEmiStore "L1" 0 9).2 "L1" = some loan' ∧
      loan'.emis.length = 2 ∧
      loan'.emis.get? 0 = some (Cell.full (markPaidEmi (sampleEmi 1 false) 9)) ∧
      (∀ j, j ≠ 0 → loan'.emis.get? j
        = [Cell.full (sampleEmi 1 false), Cell.full (sampleEmi 2 false)].get? j) := by
  obtain ⟨h1, loan', h2, h3, h4, _, _, _, _, _, _, _, _, h5⟩ :=
    claim6_mark_frame twoEmiStore "L1" 0 9
      { emis := [Cell.full (sampleEmi 1 false), Cell.full (sampleEmi 2 false)],
        status := "active" } (sampleEmi 1 false) rfl rfl rfl
  exact ⟨h1, loan', h2, h3, h4, h5⟩

end LoanLedger
